import Mathlib

/-!
Verification of the analytical linear-fit pipeline of the AppStats2019
notebooks (Week1/original/ChiSquareTest/AnalyticalLinearFit_original.ipynb).

The notebook's arrays are embedded as index functions `ℕ → ℝ` together with
an explicit length `Npoints`; sums over arrays become `Finset.range` sums.
The names of the definitions follow the variable names of the notebook
(`s`, `sx`, `sxx`, `sy`, `sxy`, `Delta`, `alpha0_calc`, ...).  The chi-square
survival function is an external library call (`scipy.stats.chi2.sf`) in the
source, so it is modelled from its mathematical definition as the upper-tail
integral of the Gamma(k/2, rate 1/2) density, reusing Mathlib's
`ProbabilityTheory.gammaPDFReal`.
-/

open MeasureTheory Set

namespace AppStats

/-- Embedding of the Sample Generator's x grid, source line
`x = np.arange(Npoints)+1`: the i-th x value is `i + 1`. -/
def xgrid (i : ℕ) : ℝ := (i : ℝ) + 1

/-- Embedding of `s = len(x)`. -/
def s (Npoints : ℕ) : ℝ := Npoints

/-- Embedding of `sx = np.sum(x)`. -/
def sx (Npoints : ℕ) (x : ℕ → ℝ) : ℝ := ∑ i ∈ Finset.range Npoints, x i

/-- Embedding of `sxx = np.sum(x**2)`. -/
def sxx (Npoints : ℕ) (x : ℕ → ℝ) : ℝ := ∑ i ∈ Finset.range Npoints, (x i) ^ 2

/-- Embedding of `sy = np.sum(y)`. -/
def sy (Npoints : ℕ) (y : ℕ → ℝ) : ℝ := ∑ i ∈ Finset.range Npoints, y i

/-- Embedding of `sxy = np.sum(x*y)`. -/
def sxy (Npoints : ℕ) (x y : ℕ → ℝ) : ℝ := ∑ i ∈ Finset.range Npoints, x i * y i

/-- Sum of squared y values, an auxiliary moment used to expand the
chi-square objective over the five moments of the dataset. -/
def syy (Npoints : ℕ) (y : ℕ → ℝ) : ℝ := ∑ i ∈ Finset.range Npoints, (y i) ^ 2

/-- Embedding of `Delta = sxx * s - sx**2`. -/
def Delta (Npoints : ℕ) (x : ℕ → ℝ) : ℝ :=
  sxx Npoints x * s Npoints - (sx Npoints x) ^ 2

/-- Embedding of `alpha0_calc = (sy * sxx - sxy * sx) / Delta`. -/
noncomputable def alpha0_calc (Npoints : ℕ) (x y : ℕ → ℝ) : ℝ :=
  (sy Npoints y * sxx Npoints x - sxy Npoints x y * sx Npoints x) / Delta Npoints x

/-- Embedding of `alpha1_calc = (sxy * s - sy * sx) / Delta`. -/
noncomputable def alpha1_calc (Npoints : ℕ) (x y : ℕ → ℝ) : ℝ :=
  (sxy Npoints x y * s Npoints - sy Npoints y * sx Npoints x) / Delta Npoints x

/-- Embedding of `sigma_alpha0_calc = sigmay * np.sqrt(sxx / Delta)`. -/
noncomputable def sigma_alpha0_calc (Npoints : ℕ) (x : ℕ → ℝ) (sigmay : ℝ) : ℝ :=
  sigmay * Real.sqrt (sxx Npoints x / Delta Npoints x)

/-- Embedding of `sigma_alpha1_calc = sigmay * np.sqrt(s / Delta)`. -/
noncomputable def sigma_alpha1_calc (Npoints : ℕ) (x : ℕ → ℝ) (sigmay : ℝ) : ℝ :=
  sigmay * Real.sqrt (s Npoints / Delta Npoints x)

/-- A fitted linear model: intercept, slope and their standard errors
(the four values `alpha0_calc`, `alpha1_calc`, `sigma_alpha0_calc`,
`sigma_alpha1_calc` computed by the notebook's analytical fit block). -/
structure LinearModel where
  alpha0 : ℝ
  alpha1 : ℝ
  sigma_alpha0 : ℝ
  sigma_alpha1 : ℝ

/-- The analytical linear fit: the four closed-form values computed by the
notebook from the sums `s, sx, sxx, sy, sxy` of the dataset. -/
noncomputable def linearFit (Npoints : ℕ) (x y : ℕ → ℝ) (sigmay : ℝ) : LinearModel :=
  { alpha0 := alpha0_calc Npoints x y
    alpha1 := alpha1_calc Npoints x y
    sigma_alpha0 := sigma_alpha0_calc Npoints x sigmay
    sigma_alpha1 := sigma_alpha1_calc Npoints x sigmay }

/-- Embedding of the notebook's chi-square accumulation loop
(`for i in range(Npoints): Chi2_calc += ((y[i] - fit_value) / ey[i])**2`
with `fit_value = a0 + a1 * x[i]`), generalised over the parameter pair
`(a0, a1)` at which the residuals are evaluated; the notebook instantiates
it at `(alpha0_calc, alpha1_calc)`. -/
noncomputable def Chi2_calc (Npoints : ℕ) (a0 a1 : ℝ) (x y ey : ℕ → ℝ) : ℝ :=
  ∑ i ∈ Finset.range Npoints, ((y i - (a0 + a1 * x i)) / ey i) ^ 2

/-- Embedding of `Nvar = 2`, the number of fitted parameters. -/
def Nvar : ℤ := 2

/-- Embedding of `Ndof_calc = Npoints - Nvar` (Python integer arithmetic,
hence a value in ℤ). -/
def Ndof_calc (Npoints : ℕ) : ℤ := (Npoints : ℤ) - Nvar

/-- Modelled from the spec: the external special-function evaluator
`scipy.stats.chi2.sf(x, k)` (not part of this repository) is specified as
`p = P(X ≥ χ² | X ~ ChiSquare(k))`, the upper-tail survival probability of
the chi-square distribution with k degrees of freedom, which is the
Gamma distribution with shape `k/2` and rate `1/2`. -/
noncomputable def chi2sf (x k : ℝ) : ℝ :=
  ∫ t in Ioi x, ProbabilityTheory.gammaPDFReal (k / 2) (1 / 2) t

/-- Embedding of `Prob_calc = stats.chi2.sf(Chi2_calc, Ndof_calc)`, with the
survival function modelled by `chi2sf`. -/
noncomputable def Prob_calc (Chi2 : ℝ) (Ndof : ℤ) : ℝ := chi2sf Chi2 (Ndof : ℝ)

/-- One experiment's stored fit results: the values the notebook pushes into
`array_alpha0`, `array_alpha1`, `array_Chi2`, `array_Prob`, together with the
fitted model and the degrees-of-freedom count. -/
structure FitResult where
  model : LinearModel
  Chi2 : ℝ
  Ndof : ℤ
  Prob : ℝ

/-- One iteration of the notebook's experiment loop: generate
`y = alpha0 + alpha1*x + noise` with `ey = sigmay` everywhere
(the Gaussian draws `r.normal(0, sigmay, Npoints)` of the external,
seeded random generator are abstracted as the given `noise` sequence),
run the analytical fit, and evaluate the goodness of fit. -/
noncomputable def experiment (Npoints : ℕ) (alpha0 alpha1 sigmay : ℝ)
    (noise : ℕ → ℝ) : FitResult :=
  let x : ℕ → ℝ := xgrid
  let y : ℕ → ℝ := fun i => alpha0 + alpha1 * x i + noise i
  let ey : ℕ → ℝ := fun _ => sigmay
  let m := linearFit Npoints x y sigmay
  let chi2 := Chi2_calc Npoints m.alpha0 m.alpha1 x y ey
  { model := m
    Chi2 := chi2
    Ndof := Ndof_calc Npoints
    Prob := Prob_calc chi2 (Ndof_calc Npoints) }

/-- The Experiment Repeater: the notebook's `for iexp in range(Nexp)` loop,
collecting the per-iteration fit results in order.  The random draws are
abstracted as a stream `stream iexp i` giving the i-th Gaussian draw of
iteration `iexp`; per the spec the external generator is deterministic in
its seed, so a seed determines this stream completely. -/
noncomputable def repeater (Nexp Npoints : ℕ) (alpha0 alpha1 sigmay : ℝ)
    (stream : ℕ → ℕ → ℝ) : List FitResult :=
  (List.range Nexp).map fun iexp =>
    experiment Npoints alpha0 alpha1 sigmay (stream iexp)

/-! ## Helper lemmas -/

/-- The gamma pdf with shape 0 is identically zero (the normalising constant
divides by `Gamma 0 = 0`), so the modelled survival function at zero degrees
of freedom is zero everywhere. -/
theorem chi2sf_dof_zero (x : ℝ) : chi2sf x 0 = 0 := by
  have h : ∀ t : ℝ, ProbabilityTheory.gammaPDFReal (0 / 2 : ℝ) (1 / 2) t = 0 := by
    intro t
    unfold ProbabilityTheory.gammaPDFReal
    simp [Real.Gamma_zero]
  unfold chi2sf
  simp only [h]
  exact integral_zero _ _

/-- Sum of the generated x grid: Σ_{i<N} (i+1) = N(N+1)/2. -/
theorem sx_xgrid (N : ℕ) : sx N xgrid = N * (N + 1) / 2 := by
  induction N with
  | zero => simp [sx]
  | succ n ih =>
    simp only [sx] at ih ⊢
    rw [Finset.sum_range_succ, ih]
    simp only [xgrid]
    push_cast
    ring

/-- Sum of squares of the generated x grid: Σ_{i<N} (i+1)² = N(N+1)(2N+1)/6. -/
theorem sxx_xgrid (N : ℕ) : sxx N xgrid = N * (N + 1) * (2 * N + 1) / 6 := by
  induction N with
  | zero => simp [sxx]
  | succ n ih =>
    simp only [sxx] at ih ⊢
    rw [Finset.sum_range_succ, ih]
    simp only [xgrid]
    push_cast
    ring

/-- Closed form of the discriminant on the generated x grid. -/
theorem Delta_xgrid (N : ℕ) :
    Delta N xgrid = (N : ℝ) ^ 2 * ((N : ℝ) ^ 2 - 1) / 12 := by
  unfold Delta s
  rw [sx_xgrid, sxx_xgrid]
  ring

/-- The discriminant on the generated x grid is positive once N ≥ 2. -/
theorem Delta_xgrid_pos {N : ℕ} (h : 2 ≤ N) : 0 < Delta N xgrid := by
  rw [Delta_xgrid]
  have h2 : (2 : ℝ) ≤ (N : ℝ) := by exact_mod_cast h
  have hsq : (4 : ℝ) ≤ (N : ℝ) ^ 2 := by nlinarith
  apply div_pos _ (by norm_num)
  apply mul_pos (by nlinarith) (by nlinarith)

/-- Value of `sy` on exactly linear data. -/
theorem sy_linear (N : ℕ) (a0 a1 : ℝ) (x : ℕ → ℝ) :
    sy N (fun i => a0 + a1 * x i) = a0 * N + a1 * sx N x := by
  unfold sy sx
  rw [Finset.sum_add_distrib, Finset.sum_const, Finset.card_range, ← Finset.mul_sum]
  ring

/-- Value of `sxy` on exactly linear data. -/
theorem sxy_linear (N : ℕ) (a0 a1 : ℝ) (x : ℕ → ℝ) :
    sxy N x (fun i => a0 + a1 * x i) = a0 * sx N x + a1 * sxx N x := by
  unfold sxy sx sxx
  rw [Finset.mul_sum, Finset.mul_sum, ← Finset.sum_add_distrib]
  exact Finset.sum_congr rfl fun i _ => by ring

/-- On exactly linear data with nonzero discriminant the closed-form
intercept is recovered without error. -/
theorem alpha0_calc_exact (N : ℕ) (a0 a1 : ℝ) (x : ℕ → ℝ)
    (hD : Delta N x ≠ 0) :
    alpha0_calc N x (fun i => a0 + a1 * x i) = a0 := by
  unfold alpha0_calc
  rw [sy_linear, sxy_linear, div_eq_iff hD]
  unfold Delta s
  ring

/-- On exactly linear data with nonzero discriminant the closed-form slope
is recovered without error. -/
theorem alpha1_calc_exact (N : ℕ) (a0 a1 : ℝ) (x : ℕ → ℝ)
    (hD : Delta N x ≠ 0) :
    alpha1_calc N x (fun i => a0 + a1 * x i) = a1 := by
  unfold alpha1_calc
  rw [sy_linear, sxy_linear, div_eq_iff hD]
  unfold Delta s
  ring

/-- The gamma density with positive shape and rate is integrable over ℝ. -/
theorem gammaPDFReal_integrable {a r : ℝ} (ha : 0 < a) (hr : 0 < r) :
    Integrable (ProbabilityTheory.gammaPDFReal a r) := by
  refine ⟨(ProbabilityTheory.measurable_gammaPDFReal a r).aestronglyMeasurable, ?_⟩
  rw [hasFiniteIntegral_iff_ofReal
    (ae_of_all _ (ProbabilityTheory.gammaPDFReal_nonneg ha hr))]
  have h1 : ∫⁻ t, ProbabilityTheory.gammaPDF a r t = 1 :=
    ProbabilityTheory.lintegral_gammaPDF_eq_one ha hr
  have h2 : (fun t => ENNReal.ofReal (ProbabilityTheory.gammaPDFReal a r t))
      = ProbabilityTheory.gammaPDF a r := rfl
  rw [h2, h1]
  exact ENNReal.one_lt_top

/-- The Bochner integral of the gamma density over ℝ equals one. -/
theorem gammaPDFReal_integral_eq_one {a r : ℝ} (ha : 0 < a) (hr : 0 < r) :
    ∫ t, ProbabilityTheory.gammaPDFReal a r t = 1 := by
  rw [integral_eq_lintegral_of_nonneg_ae
    (ae_of_all _ (ProbabilityTheory.gammaPDFReal_nonneg ha hr))
    (ProbabilityTheory.measurable_gammaPDFReal a r).aestronglyMeasurable]
  have h2 : (fun t => ENNReal.ofReal (ProbabilityTheory.gammaPDFReal a r t))
      = ProbabilityTheory.gammaPDF a r := rfl
  rw [h2, ProbabilityTheory.lintegral_gammaPDF_eq_one ha hr]
  rfl

/-- The modelled survival function is nonnegative for positive dof. -/
theorem chi2sf_nonneg {k : ℝ} (hk : 0 < k) (x : ℝ) : 0 ≤ chi2sf x k := by
  have ha : 0 < k / 2 := by linarith
  exact setIntegral_nonneg measurableSet_Ioi fun t _ =>
    ProbabilityTheory.gammaPDFReal_nonneg ha (by norm_num) t

/-- The modelled survival function at χ² = 0 equals one for positive dof. -/
theorem chi2sf_zero_eq_one {k : ℝ} (hk : 0 < k) : chi2sf 0 k = 1 := by
  have ha : 0 < k / 2 := by linarith
  have hr : (0 : ℝ) < 1 / 2 := by norm_num
  have hint := gammaPDFReal_integrable ha hr
  have htot := gammaPDFReal_integral_eq_one ha hr
  have hsplit := integral_add_compl measurableSet_Iic hint
      (f := ProbabilityTheory.gammaPDFReal (k / 2) (1 / 2)) (s := Iic (0 : ℝ))
  rw [compl_Iic] at hsplit
  have hIic : ∫ t in Iic (0 : ℝ),
      ProbabilityTheory.gammaPDFReal (k / 2) (1 / 2) t = 0 := by
    rw [← setIntegral_congr_set (Iio_ae_eq_Iic (a := (0 : ℝ)))]
    rw [setIntegral_congr_fun measurableSet_Iio
      (fun t (ht : t < 0) => by
        unfold ProbabilityTheory.gammaPDFReal
        rw [if_neg (not_le.mpr ht)])]
    simp
  unfold chi2sf
  rw [hIic, zero_add] at hsplit
  rw [hsplit, htot]

/-- Splitting the upper-tail integral at an intermediate point. -/
theorem chi2sf_split {k : ℝ} (hk : 0 < k) {a b : ℝ} (hab : a ≤ b) :
    chi2sf a k = (∫ t in Ioc a b,
        ProbabilityTheory.gammaPDFReal (k / 2) (1 / 2) t) + chi2sf b k := by
  have ha : 0 < k / 2 := by linarith
  have hint := gammaPDFReal_integrable ha (by norm_num : (0 : ℝ) < 1 / 2)
  unfold chi2sf
  rw [← Set.Ioc_union_Ioi_eq_Ioi hab]
  exact setIntegral_union (Set.Ioc_disjoint_Ioi le_rfl) measurableSet_Ioi
    hint.integrableOn hint.integrableOn

/-- The modelled survival function strictly decreases in χ² on the
nonnegative axis, for positive dof. -/
theorem chi2sf_strict_anti {k : ℝ} (hk : 0 < k) {a b : ℝ} (ha0 : 0 ≤ a)
    (hab : a < b) : chi2sf b k < chi2sf a k := by
  have ha : 0 < k / 2 := by linarith
  have hr : (0 : ℝ) < 1 / 2 := by norm_num
  have hint := gammaPDFReal_integrable ha hr
  rw [chi2sf_split hk hab.le]
  have hpos : 0 < ∫ t in Ioc a b,
      ProbabilityTheory.gammaPDFReal (k / 2) (1 / 2) t := by
    rw [← intervalIntegral.integral_of_le hab.le]
    apply intervalIntegral.intervalIntegral_pos_of_pos_on hint.intervalIntegrable
    · intro t ht
      exact ProbabilityTheory.gammaPDFReal_pos ha hr (lt_of_le_of_lt ha0 ht.1)
    · exact hab
  linarith

/-- The modelled survival function is at most one on the nonnegative axis,
for positive dof. -/
theorem chi2sf_le_one {k : ℝ} (hk : 0 < k) {x : ℝ} (hx : 0 ≤ x) :
    chi2sf x k ≤ 1 := by
  have ha : 0 < k / 2 := by linarith
  have hnn : 0 ≤ ∫ t in Ioc (0 : ℝ) x,
      ProbabilityTheory.gammaPDFReal (k / 2) (1 / 2) t :=
    setIntegral_nonneg measurableSet_Ioc fun t _ =>
      ProbabilityTheory.gammaPDFReal_nonneg ha (by norm_num) t
  have := chi2sf_split hk hx (a := 0) (b := x)
  have h1 := chi2sf_zero_eq_one hk
  linarith

/-- Expansion of the unweighted residual sum of squares over the five
moments N, sx, sxx, sy, sxy and syy of the dataset. -/
theorem sum_sq_residual (N : ℕ) (a0 a1 : ℝ) (x y : ℕ → ℝ) :
    ∑ i ∈ Finset.range N, (y i - (a0 + a1 * x i)) ^ 2
      = syy N y - 2 * a0 * sy N y - 2 * a1 * sxy N x y + 2 * a0 * a1 * sx N x
        + a0 ^ 2 * N + a1 ^ 2 * sxx N x := by
  have step : ∑ i ∈ Finset.range N, (y i - (a0 + a1 * x i)) ^ 2
      = ∑ i ∈ Finset.range N,
          ((y i) ^ 2 - 2 * a0 * y i - 2 * a1 * (x i * y i) + 2 * (a0 * a1) * x i
            + a0 ^ 2 + a1 ^ 2 * (x i) ^ 2) :=
    Finset.sum_congr rfl fun i _ => by ring
  rw [step]
  rw [Finset.sum_add_distrib, Finset.sum_add_distrib, Finset.sum_add_distrib,
    Finset.sum_sub_distrib, Finset.sum_sub_distrib, ← Finset.mul_sum,
    ← Finset.mul_sum, ← Finset.mul_sum, ← Finset.mul_sum, Finset.sum_const,
    Finset.card_range]
  unfold syy sy sxy sx sxx
  ring

/-- First normal equation: the closed-form parameters satisfy
S·α0 + Sx·α1 = Sy whenever Δ is nonzero. -/
theorem normal_equation_0 (N : ℕ) (x y : ℕ → ℝ) (hD : Delta N x ≠ 0) :
    s N * alpha0_calc N x y + sx N x * alpha1_calc N x y = sy N y := by
  unfold alpha0_calc alpha1_calc
  field_simp
  unfold Delta s
  ring

/-- Second normal equation: the closed-form parameters satisfy
Sx·α0 + Sxx·α1 = Sxy whenever Δ is nonzero. -/
theorem normal_equation_1 (N : ℕ) (x y : ℕ → ℝ) (hD : Delta N x ≠ 0) :
    sx N x * alpha0_calc N x y + sxx N x * alpha1_calc N x y = sxy N x y := by
  unfold alpha0_calc alpha1_calc
  field_simp
  unfold Delta s
  ring

/-- Cauchy–Schwarz: the discriminant Sxx·N − Sx² is nonnegative for every
x array. -/
theorem Delta_nonneg (N : ℕ) (x : ℕ → ℝ) : 0 ≤ Delta N x := by
  unfold Delta sxx sx s
  have h := Finset.sum_mul_sq_le_sq_mul_sq (Finset.range N) x (fun _ => 1)
  simp only [mul_one, one_pow, Finset.sum_const, Finset.card_range,
    nsmul_eq_mul] at h
  nlinarith [h]

/-- A nonzero discriminant forces a nonempty dataset. -/
theorem pos_of_Delta_ne_zero {N : ℕ} {x : ℕ → ℝ} (hD : Delta N x ≠ 0) :
    0 < N := by
  rcases Nat.eq_zero_or_pos N with h0 | hpos
  · exfalso
    apply hD
    subst h0
    simp [Delta, sxx, sx, s]
  · exact hpos

/-- The chi-square objective with constant per-point error σ is the
unweighted residual sum of squares divided by σ². -/
theorem Chi2_calc_const_ey (N : ℕ) (a0 a1 : ℝ) (x y : ℕ → ℝ) (sigmay : ℝ) :
    Chi2_calc N a0 a1 x y (fun _ => sigmay)
      = (∑ i ∈ Finset.range N, (y i - (a0 + a1 * x i)) ^ 2) / sigmay ^ 2 := by
  unfold Chi2_calc
  rw [Finset.sum_div]
  exact Finset.sum_congr rfl fun i _ => by rw [div_pow]

/-! ## Claims -/

/-- C1: for every dataset of N observations with x_i = 1..N and constant σy,
the Analytical Linear Fitter returns exactly the closed-form values
Δ = Sxx·S − Sx², α0 = (Sy·Sxx − Sxy·Sx)/Δ, α1 = (Sxy·S − Sy·Sx)/Δ,
σα0 = σy·√(Sxx/Δ) and σα1 = σy·√(S/Δ), with S = N, Sx = Σx_i, Sxx = Σx_i²,
Sy = Σy_i, Sxy = Σx_i·y_i, all sums spelled out explicitly below. -/
theorem fitter_closed_form (N : ℕ) (sigmay : ℝ) (y : ℕ → ℝ) :
    linearFit N xgrid y sigmay =
      { alpha0 :=
          ((∑ i ∈ Finset.range N, y i) * (∑ i ∈ Finset.range N, ((i : ℝ) + 1) ^ 2)
            - (∑ i ∈ Finset.range N, ((i : ℝ) + 1) * y i) * (∑ i ∈ Finset.range N, ((i : ℝ) + 1)))
          / ((∑ i ∈ Finset.range N, ((i : ℝ) + 1) ^ 2) * (N : ℝ)
            - (∑ i ∈ Finset.range N, ((i : ℝ) + 1)) ^ 2)
        alpha1 :=
          ((∑ i ∈ Finset.range N, ((i : ℝ) + 1) * y i) * (N : ℝ)
            - (∑ i ∈ Finset.range N, y i) * (∑ i ∈ Finset.range N, ((i : ℝ) + 1)))
          / ((∑ i ∈ Finset.range N, ((i : ℝ) + 1) ^ 2) * (N : ℝ)
            - (∑ i ∈ Finset.range N, ((i : ℝ) + 1)) ^ 2)
        sigma_alpha0 :=
          sigmay * Real.sqrt ((∑ i ∈ Finset.range N, ((i : ℝ) + 1) ^ 2)
            / ((∑ i ∈ Finset.range N, ((i : ℝ) + 1) ^ 2) * (N : ℝ)
              - (∑ i ∈ Finset.range N, ((i : ℝ) + 1)) ^ 2))
        sigma_alpha1 :=
          sigmay * Real.sqrt ((N : ℝ)
            / ((∑ i ∈ Finset.range N, ((i : ℝ) + 1) ^ 2) * (N : ℝ)
              - (∑ i ∈ Finset.range N, ((i : ℝ) + 1)) ^ 2)) } := rfl

/-- C7: for every dataset of N observations fitted with the 2-parameter
linear model, the degrees-of-freedom count in the FitResult equals N − 2
exactly. -/
theorem ndof_eq_n_sub_two (Npoints : ℕ) (alpha0 alpha1 sigmay : ℝ)
    (noise : ℕ → ℝ) :
    (experiment Npoints alpha0 alpha1 sigmay noise).Ndof = (Npoints : ℤ) - 2 := rfl

/-- C10: the parameter uncertainties σα0 and σα1 depend only on the x values,
the sample size and the noise scale σy, never on the observed y values: two
datasets with the same x grid and σy but different y yield identical
uncertainties, and every iteration of an Experiment Repeater batch reports
the same uncertainties as every other iteration. -/
theorem uncertainties_independent_of_y (Npoints : ℕ) (x : ℕ → ℝ) (sigmay : ℝ)
    (y1 y2 : ℕ → ℝ) (alpha0 alpha1 : ℝ) (stream : ℕ → ℕ → ℝ) (i j : ℕ) :
    ((linearFit Npoints x y1 sigmay).sigma_alpha0
        = (linearFit Npoints x y2 sigmay).sigma_alpha0
      ∧ (linearFit Npoints x y1 sigmay).sigma_alpha1
        = (linearFit Npoints x y2 sigmay).sigma_alpha1)
    ∧ ((experiment Npoints alpha0 alpha1 sigmay (stream i)).model.sigma_alpha0
        = (experiment Npoints alpha0 alpha1 sigmay (stream j)).model.sigma_alpha0
      ∧ (experiment Npoints alpha0 alpha1 sigmay (stream i)).model.sigma_alpha1
        = (experiment Npoints alpha0 alpha1 sigmay (stream j)).model.sigma_alpha1) :=
  ⟨⟨rfl, rfl⟩, rfl, rfl⟩

/-- C8: the Experiment Repeater is deterministic in the random stream: the
batch it produces depends on nothing but the configuration and the sequence
of draws, so two runs whose (seed-determined, per the spec of the external
generator) draw sequences coincide produce identical ExperimentBatch
contents. -/
theorem repeater_deterministic (Nexp Npoints : ℕ) (alpha0 alpha1 sigmay : ℝ)
    (s1 s2 : ℕ → ℕ → ℝ) (h : ∀ i j, s1 i j = s2 i j) :
    repeater Nexp Npoints alpha0 alpha1 sigmay s1
      = repeater Nexp Npoints alpha0 alpha1 sigmay s2 := by
  have hs : s1 = s2 := funext fun i => funext fun j => h i j
  rw [hs]

/-- Witness for C8 at the concrete configuration Nexp = 2, Npoints = 3,
α0 = 1, α1 = 2, σy = 1, with two equal zero streams. -/
theorem repeater_deterministic_witness :
    repeater 2 3 1 2 1 (fun _ _ => 0) = repeater 2 3 1 2 1 (fun _ _ => 0) :=
  repeater_deterministic 2 3 1 2 1 (fun _ _ => 0) (fun _ _ => 0)
    (fun _ _ => rfl)

/-- C2: for every dataset with nonzero discriminant Δ and constant σy, the
pair (α0, α1) returned by the Analytical Linear Fitter is a global minimizer
of the objective Σ_i ((y_i − a0 − a1·x_i)/σy)²: for all real (a0, a1) the
objective at the returned parameters is at most the objective at (a0, a1). -/
theorem fit_is_global_minimum (N : ℕ) (x y : ℕ → ℝ) (sigmay : ℝ)
    (hD : Delta N x ≠ 0) (a0 a1 : ℝ) :
    Chi2_calc N (alpha0_calc N x y) (alpha1_calc N x y) x y (fun _ => sigmay)
      ≤ Chi2_calc N a0 a1 x y (fun _ => sigmay) := by
  rw [Chi2_calc_const_ey, Chi2_calc_const_ey]
  refine div_le_div_of_nonneg_right ?_ (sq_nonneg sigmay)
  rw [sum_sq_residual, sum_sq_residual]
  set A0 := alpha0_calc N x y with hA0
  set A1 := alpha1_calc N x y with hA1
  have hNposR : (0 : ℝ) < (N : ℝ) := by
    exact_mod_cast pos_of_Delta_ne_zero hD
  have e0 := normal_equation_0 N x y hD
  have e1 := normal_equation_1 N x y hD
  unfold s at e0
  have hDge : (0 : ℝ) ≤ sxx N x * (N : ℝ) - (sx N x) ^ 2 := by
    have h := Delta_nonneg N x
    unfold Delta s at h
    exact h
  rw [show sy N y = (N : ℝ) * A0 + sx N x * A1 from by linarith,
    show sxy N x y = sx N x * A0 + sxx N x * A1 from by linarith]
  nlinarith [sq_nonneg ((N : ℝ) * (A0 - a0) + sx N x * (A1 - a1)),
    mul_nonneg hDge (sq_nonneg (A1 - a1)), hNposR]

/-- Witness for C2 at N = 2, x the generated grid, y = (0, 1), σy = 1 and
the competing parameter pair (1, 1). -/
theorem fit_is_global_minimum_witness :
    Delta 2 xgrid ≠ 0
    ∧ Chi2_calc 2 (alpha0_calc 2 xgrid (fun i => (i : ℝ)))
        (alpha1_calc 2 xgrid (fun i => (i : ℝ))) xgrid (fun i => (i : ℝ))
        (fun _ => 1)
      ≤ Chi2_calc 2 1 1 xgrid (fun i => (i : ℝ)) (fun _ => 1) := by
  have hD : Delta 2 xgrid ≠ 0 := by
    norm_num [Delta, sxx, sx, s, xgrid, Finset.sum_range_succ]
  exact ⟨hD, fit_is_global_minimum 2 xgrid (fun i => (i : ℝ)) 1 hD 1 1⟩

/-- C9: for every dataset produced by the Sample Generator with N ≥ 2
(x_i = i+1, all distinct), the discriminant Δ = Sxx·N − Sx² equals
N²(N²−1)/12 and is strictly positive; hence the divisions by Δ and the
radicands Sxx/Δ and S/Δ of the square roots in the Analytical Linear Fitter
are well-defined (nonzero divisor, nonnegative radicands) on the generated
pipeline. -/
theorem generated_design_wellformed (N : ℕ) (h : 2 ≤ N) :
    Delta N xgrid = (N : ℝ) ^ 2 * ((N : ℝ) ^ 2 - 1) / 12
    ∧ 0 < Delta N xgrid
    ∧ Delta N xgrid ≠ 0
    ∧ 0 ≤ sxx N xgrid / Delta N xgrid
    ∧ 0 ≤ s N / Delta N xgrid := by
  have hpos := Delta_xgrid_pos h
  refine ⟨Delta_xgrid N, hpos, ne_of_gt hpos, ?_, ?_⟩
  · apply div_nonneg _ hpos.le
    unfold sxx
    exact Finset.sum_nonneg fun i _ => sq_nonneg _
  · apply div_nonneg _ hpos.le
    unfold s
    exact Nat.cast_nonneg N

/-- Witness for C9 at the notebook's own configuration N = 9. -/
theorem generated_design_wellformed_witness :
    (2 ≤ 9) ∧ 0 < Delta 9 xgrid ∧ Delta 9 xgrid ≠ 0 :=
  ⟨by norm_num, (generated_design_wellformed 9 (by norm_num)).2.1,
    (generated_design_wellformed 9 (by norm_num)).2.2.1⟩

/-- C3 counterexample: at the concrete degenerate dataset with N = 2,
x = (1, 1) (all x identical, so Δ = 0) and y = (2, 2), the fitter does not
fail: it divides by the zero Δ and still returns a LinearModel (at runtime
numpy produces NaN/Inf values; in the real-valued embedding, division by
zero yields 0).  There is no DegenerateDesign error path in the code. -/
theorem degenerate_returns_result :
    Delta 2 (fun _ => 1) = 0
    ∧ linearFit 2 (fun _ => 1) (fun _ => 2) 1 =
        { alpha0 := 0, alpha1 := 0, sigma_alpha0 := 0, sigma_alpha1 := 0 } := by
  have hD : Delta 2 (fun _ : ℕ => (1 : ℝ)) = 0 := by
    norm_num [Delta, sxx, sx, s, Finset.sum_range_succ]
  refine ⟨hD, ?_⟩
  simp [linearFit, alpha0_calc, alpha1_calc, sigma_alpha0_calc,
    sigma_alpha1_calc, hD]

/-- C3 (amended): whenever Δ = 0 the Analytical Linear Fitter performs no
degeneracy check: it unconditionally divides by Δ and returns a LinearModel
(junk values — NaN/Inf at runtime, zeros in the real-valued embedding)
instead of failing with a DegenerateDesign error. -/
theorem degenerate_no_error_path (Npoints : ℕ) (x y : ℕ → ℝ) (sigmay : ℝ)
    (hD : Delta Npoints x = 0) :
    linearFit Npoints x y sigmay =
      { alpha0 := 0, alpha1 := 0, sigma_alpha0 := 0, sigma_alpha1 := 0 } := by
  simp [linearFit, alpha0_calc, alpha1_calc, sigma_alpha0_calc,
    sigma_alpha1_calc, hD]

/-- Witness for the amended C3 at N = 2, x = (3, 3), y = (5, 5), σy = 2. -/
theorem degenerate_no_error_path_witness :
    Delta 2 (fun _ => 3) = 0
    ∧ linearFit 2 (fun _ => 3) (fun _ => 5) 2 =
      { alpha0 := 0, alpha1 := 0, sigma_alpha0 := 0, sigma_alpha1 := 0 } := by
  have hD : Delta 2 (fun _ : ℕ => (3 : ℝ)) = 0 := by
    norm_num [Delta, sxx, sx, s, Finset.sum_range_succ]
  exact ⟨hD, degenerate_no_error_path 2 _ _ 2 hD⟩

/-- C5: the tail probability reported by the Goodness-of-Fit Evaluator
satisfies, for every fixed degrees-of-freedom k ≥ 1 and χ² values on the
nonnegative axis: p ∈ [0,1]; p = 1 exactly when χ² = 0; and p strictly
decreases as χ² increases. -/
theorem survival_function_properties (k : ℝ) (hk : 1 ≤ k) :
    (∀ x : ℝ, 0 ≤ x → 0 ≤ chi2sf x k ∧ chi2sf x k ≤ 1)
    ∧ (∀ x : ℝ, 0 ≤ x → (chi2sf x k = 1 ↔ x = 0))
    ∧ (∀ a b : ℝ, 0 ≤ a → a < b → chi2sf b k < chi2sf a k) := by
  have hk0 : (0 : ℝ) < k := by linarith
  refine ⟨fun x hx => ⟨chi2sf_nonneg hk0 x, chi2sf_le_one hk0 hx⟩,
    fun x hx => ⟨?_, ?_⟩, fun a b ha0 hab => chi2sf_strict_anti hk0 ha0 hab⟩
  · intro h1
    by_contra hne
    have hxpos : 0 < x := lt_of_le_of_ne hx (Ne.symm hne)
    have := chi2sf_strict_anti hk0 le_rfl hxpos
    rw [chi2sf_zero_eq_one hk0, h1] at this
    exact lt_irrefl 1 this
  · intro h0
    rw [h0]
    exact chi2sf_zero_eq_one hk0

/-- Witness for C5 at k = 1 and the χ² values 0, 1 and 2. -/
theorem survival_function_properties_witness :
    (0 ≤ chi2sf 1 1 ∧ chi2sf 1 1 ≤ 1)
    ∧ chi2sf 0 1 = 1
    ∧ chi2sf 2 1 < chi2sf 1 1 := by
  have h := survival_function_properties 1 le_rfl
  exact ⟨h.1 1 (by norm_num), (h.2.1 0 le_rfl).mpr rfl,
    h.2.2 1 2 (by norm_num) (by norm_num)⟩

/-- C6: for every dataset with N ≥ 3 points, x_i = 1..N, in which each y_i
equals α0 + α1·x_i exactly (zero noise), the Analytical Linear Fitter
recovers α0 and α1 exactly (in particular within 1e-9 relative error) and
the Goodness-of-Fit Evaluator reports χ² = 0 and p = 1. -/
theorem zero_noise_recovery (N : ℕ) (hN : 3 ≤ N) (alpha0 alpha1 sigmay : ℝ) :
    (experiment N alpha0 alpha1 sigmay (fun _ => 0)).model.alpha0 = alpha0
    ∧ (experiment N alpha0 alpha1 sigmay (fun _ => 0)).model.alpha1 = alpha1
    ∧ |(experiment N alpha0 alpha1 sigmay (fun _ => 0)).model.alpha0 - alpha0|
        ≤ 1e-9 * |alpha0|
    ∧ |(experiment N alpha0 alpha1 sigmay (fun _ => 0)).model.alpha1 - alpha1|
        ≤ 1e-9 * |alpha1|
    ∧ (experiment N alpha0 alpha1 sigmay (fun _ => 0)).Chi2 = 0
    ∧ (experiment N alpha0 alpha1 sigmay (fun _ => 0)).Prob = 1 := by
  have hD : Delta N xgrid ≠ 0 := ne_of_gt (Delta_xgrid_pos (by omega))
  simp only [experiment, linearFit, add_zero]
  have h0 : alpha0_calc N xgrid (fun i => alpha0 + alpha1 * xgrid i) = alpha0 :=
    alpha0_calc_exact N alpha0 alpha1 xgrid hD
  have h1 : alpha1_calc N xgrid (fun i => alpha0 + alpha1 * xgrid i) = alpha1 :=
    alpha1_calc_exact N alpha0 alpha1 xgrid hD
  rw [h0, h1]
  have hchi : Chi2_calc N alpha0 alpha1 xgrid
      (fun i => alpha0 + alpha1 * xgrid i) (fun _ => sigmay) = 0 := by
    unfold Chi2_calc
    apply Finset.sum_eq_zero
    intro i _
    rw [show alpha0 + alpha1 * xgrid i - (alpha0 + alpha1 * xgrid i) = 0 from
      by ring]
    simp
  rw [hchi]
  have hdofpos : (0 : ℝ) < ((Ndof_calc N : ℤ) : ℝ) := by
    unfold Ndof_calc Nvar
    push_cast
    have : (3 : ℝ) ≤ (N : ℝ) := by exact_mod_cast hN
    linarith
  refine ⟨rfl, rfl, by simp [abs_nonneg]; positivity, by simp [abs_nonneg]; positivity,
    rfl, ?_⟩
  unfold Prob_calc
  exact chi2sf_zero_eq_one hdofpos

/-- Witness for C6 at N = 3, α0 = 1, α1 = 2, σy = 1. -/
theorem zero_noise_recovery_witness :
    (experiment 3 1 2 1 (fun _ => 0)).model.alpha0 = 1
    ∧ (experiment 3 1 2 1 (fun _ => 0)).Chi2 = 0
    ∧ (experiment 3 1 2 1 (fun _ => 0)).Prob = 1 := by
  have h := zero_noise_recovery 3 (by norm_num) 1 2 1
  exact ⟨h.1, h.2.2.2.2.1, h.2.2.2.2.2⟩

/-- C4 counterexample: at the concrete configuration N = 2 (as many
observations as fitted parameters), with true line y = x and zero noise,
the Goodness-of-Fit Evaluator does not raise any error: it returns a
complete FitResult with Ndof = 0 and a tail probability computed by the
survival function at zero degrees of freedom (NaN at runtime with scipy;
0 in the embedding, whose dof-0 density is identically zero).  No
InsufficientDegreesOfFreedom error path exists in the code. -/
theorem insufficient_dof_returns_result :
    experiment 2 0 1 1 (fun _ => 0) =
      { model := { alpha0 := 0, alpha1 := 1, sigma_alpha0 := Real.sqrt 5,
                   sigma_alpha1 := Real.sqrt 2 },
        Chi2 := 0, Ndof := 0, Prob := 0 } := by
  have hsf : chi2sf 0 0 = 0 := chi2sf_dof_zero 0
  have hD : Delta 2 xgrid = 1 := by
    norm_num [Delta, sxx, sx, s, xgrid, Finset.sum_range_succ]
  simp only [experiment, linearFit, FitResult.mk.injEq, LinearModel.mk.injEq]
  norm_num [alpha0_calc, alpha1_calc, sigma_alpha0_calc, sigma_alpha1_calc,
    Chi2_calc, Ndof_calc, Nvar, Prob_calc, Delta, s, sx, sxx, sy, sxy, xgrid,
    Finset.sum_range_succ, hsf]

/-- C4 (amended): the Goodness-of-Fit Evaluator performs no
degrees-of-freedom check: for every dataset size N ≤ 2 it still returns a
FitResult whose degrees-of-freedom count N − 2 is nonpositive (0 for N = 2)
and whose tail probability is the survival function evaluated at that
nonpositive dof (NaN at runtime), rather than raising an
InsufficientDegreesOfFreedom error. -/
theorem insufficient_dof_no_error_path (N : ℕ) (hN : N ≤ 2)
    (alpha0 alpha1 sigmay : ℝ) (noise : ℕ → ℝ) :
    (experiment N alpha0 alpha1 sigmay noise).Ndof = (N : ℤ) - 2
    ∧ (experiment N alpha0 alpha1 sigmay noise).Ndof ≤ 0
    ∧ (experiment N alpha0 alpha1 sigmay noise).Prob
        = chi2sf ((experiment N alpha0 alpha1 sigmay noise).Chi2)
            (((N : ℤ) - 2 : ℤ) : ℝ) := by
  refine ⟨rfl, ?_, rfl⟩
  simp only [experiment, Ndof_calc, Nvar]
  omega

/-- Witness for the amended C4 at N = 2. -/
theorem insufficient_dof_no_error_path_witness :
    (experiment 2 3 4 1 (fun _ => 0)).Ndof = 0
    ∧ (experiment 2 3 4 1 (fun _ => 0)).Ndof ≤ 0 := by
  have h := insufficient_dof_no_error_path 2 (by norm_num) 3 4 1 (fun _ => 0)
  exact ⟨h.1, h.2.1⟩

end AppStats
